import Mathlib

/-!
Verification of the astro-rag retrieval-augmented-generation worker.

Texts are modelled as lists of characters (`Str`); JavaScript string builtins
(`trim`, `lastIndexOf`, `slice`, `substring`) are translated to list
operations with the builtins' documented semantics.  Scores and thresholds are
exact rationals; the fractional comparisons `start + chunkSize * 0.7` and
`start + chunkSize * 0.8` from the chunker are embedded as the exact rational
comparisons `10*p > 10*start + 7*chunkSize` (for the chunk sizes the
repository uses — 10, 20, 1000, 8000 — the JavaScript double products
`chunkSize * 0.7` and `chunkSize * 0.8` are exactly these rationals).
External collaborators (vector index, document store, completion service, web
search) are parameters of the embedded functions: the embedding models the
repository's own logic over arbitrary collaborator responses.
-/

namespace AstroRag

/-- A JavaScript string, modelled as its list of characters. -/
abbrev Str := List Char

/-- Embed a Lean string literal into the character-list model. -/
def lit (s : String) : Str := s.toList

/-- The characters JavaScript `trim` removes (ASCII whitespace as used by the
repository's texts). -/
def jsWhitespace (c : Char) : Bool := c == ' ' || c == '\t' || c == '\n' || c == '\r'

/-- JavaScript `String.prototype.trim`: drop whitespace from both ends
(`List.rdropWhile p l` is `reverse (dropWhile p (reverse l))`). -/
def trimChars (s : Str) : Str :=
  List.rdropWhile jsWhitespace (s.dropWhile jsWhitespace)

/-- The last position `i ≤ fr` whose character satisfies `p`, if any.
This is the documented semantics of `String.prototype.lastIndexOf` with a
`fromIndex`, generalised from a single character to a predicate. -/
def specLastMatch (p : Char → Bool) (cs : Str) (fr : Nat) : Option Nat :=
  let k := Nat.findGreatest (fun i => (cs.get? i).any p = true) fr
  if (cs.get? k).any p = true then some k else none

/-- Encode an optional position as a JavaScript index (`-1` for "not found"). -/
def optToInt : Option Nat → Int
  | none => -1
  | some n => (n : Int)

/-- JavaScript `text.lastIndexOf(c, fr)`: the largest index `i ≤ fr` with
`text[i] = c`, or `-1`. -/
def jsLastIndexOf (cs : Str) (c : Char) (fr : Nat) : Int :=
  optToInt (specLastMatch (fun x => x == c) cs fr)

/-- The boundary-selection step of `chunkText` (src/unnamed/part_005,
`RAGWorkflow.chunkText`): for the window starting at `start`, compute the cut
position `end`.  Faithful to the source: the candidate is `start + chunkSize`;
if it is not past the end of the text, take the max of the last indices of
`.`, `?`, `!` at or before the candidate, use it (plus one) if it is strictly
later than `start + 0.7 * chunkSize`, else fall back to the last `' '` if it
is strictly later than `start + 0.8 * chunkSize`, else keep the candidate. -/
def computeEnd (cs : Str) (chunkSize start : Nat) : Nat :=
  let cand := start + chunkSize
  if cand < cs.length then
    let lastSentenceEnd : Int :=
      max (max (jsLastIndexOf cs '.' cand) (jsLastIndexOf cs '?' cand))
        (jsLastIndexOf cs '!' cand)
    if 10 * lastSentenceEnd > 10 * (start : Int) + 7 * (chunkSize : Int) then
      (lastSentenceEnd + 1).toNat
    else
      let lastSpace : Int := jsLastIndexOf cs ' ' cand
      if 10 * lastSpace > 10 * (start : Int) + 8 * (chunkSize : Int) then
        lastSpace.toNat
      else cand
  else cand

/-- Sentence-terminal punctuation, as the spec words it. -/
def isTerminalChar (c : Char) : Bool := (c == '.' || c == '?') || c == '!'

/-- Spec-shaped whitespace fallback for the cut position: cut at the last
space at or before the candidate if it lies strictly later than
`start + 0.8 * chunkSize`, else cut at the raw candidate. -/
def specSpaceEnd (cs : Str) (chunkSize start : Nat) : Nat :=
  match specLastMatch (fun x => x == ' ') cs (start + chunkSize) with
  | some s => if 10 * s > 10 * start + 8 * chunkSize then s else start + chunkSize
  | none => start + chunkSize

/-- Spec-shaped cut position, with the strict ratio conditions: cut just after
the last sentence-terminal punctuation at or before the candidate boundary if
that position is strictly later than `start + 0.7 * chunkSize`; otherwise fall
back to the last space (strictly later than `start + 0.8 * chunkSize`);
otherwise cut at the raw candidate `start + chunkSize`. -/
def specEndStrict (cs : Str) (chunkSize start : Nat) : Nat :=
  match specLastMatch isTerminalChar cs (start + chunkSize) with
  | some p => if 10 * p > 10 * start + 7 * chunkSize then p + 1
              else specSpaceEnd cs chunkSize start
  | none => specSpaceEnd cs chunkSize start

/-- What it means for `r` to be the last position at or before `fr` matching
`p` (with `none` meaning there is none). -/
def LastMatchSpec (p : Char → Bool) (cs : Str) (fr : Nat) : Option Nat → Prop
  | none => ∀ i, i ≤ fr → ¬ ((cs.get? i).any p = true)
  | some n => n ≤ fr ∧ (cs.get? n).any p = true ∧
      ∀ i, n < i → i ≤ fr → ¬ ((cs.get? i).any p = true)

theorem lastMatchSpec_specLastMatch (p : Char → Bool) (cs : Str) (fr : Nat) :
    LastMatchSpec p cs fr (specLastMatch p cs fr) := by
  unfold specLastMatch
  by_cases h :
      (cs.get? (Nat.findGreatest (fun i => (cs.get? i).any p = true) fr)).any p = true
  · rw [if_pos h]
    refine ⟨Nat.findGreatest_le fr, h, ?_⟩
    intro i hi hile
    exact Nat.findGreatest_is_greatest (P := fun i => (cs.get? i).any p = true) hi hile
  · rw [if_neg h]
    intro i hile hPi
    exact h (Nat.findGreatest_spec (P := fun i => (cs.get? i).any p = true) hile hPi)

theorem lastMatchSpec_unique {p : Char → Bool} {cs : Str} {fr : Nat}
    {r r' : Option Nat} (h : LastMatchSpec p cs fr r)
    (h' : LastMatchSpec p cs fr r') : r = r' := by
  match r, r' with
  | none, none => rfl
  | none, some n' => exact absurd h'.2.1 (h n' h'.1)
  | some n, none => exact absurd h.2.1 (h' n h.1)
  | some n, some n' =>
    rcases Nat.lt_trichotomy n n' with hlt | heq | hgt
    · exact absurd h'.2.1 (h.2.2 n' hlt h'.1)
    · exact congrArg some heq
    · exact absurd h.2.1 (h'.2.2 n hgt h.1)

/-- Max of two optional positions, with `none` as bottom. -/
def optMax : Option Nat → Option Nat → Option Nat
  | none, b => b
  | some a, none => some a
  | some a, some b => some (max a b)

theorem optAny_or (o : Option Char) (p q : Char → Bool) :
    (o.any (fun c => p c || q c) = true) ↔ (o.any p = true ∨ o.any q = true) := by
  cases o <;> simp [Option.any, Bool.or_eq_true]

theorem lastMatchSpec_optMax {p q : Char → Bool} {cs : Str} {fr : Nat}
    {r s : Option Nat} (hp : LastMatchSpec p cs fr r)
    (hq : LastMatchSpec q cs fr s) :
    LastMatchSpec (fun c => p c || q c) cs fr (optMax r s) := by
  match r, s with
  | none, none =>
    intro i hile hany
    rcases (optAny_or _ _ _).mp hany with h | h
    · exact hp i hile h
    · exact hq i hile h
  | none, some m =>
    refine ⟨hq.1, (optAny_or _ _ _).mpr (Or.inr hq.2.1), ?_⟩
    intro i hmi hile hany
    rcases (optAny_or _ _ _).mp hany with h | h
    · exact hp i hile h
    · exact hq.2.2 i hmi hile h
  | some n, none =>
    refine ⟨hp.1, (optAny_or _ _ _).mpr (Or.inl hp.2.1), ?_⟩
    intro i hni hile hany
    rcases (optAny_or _ _ _).mp hany with h | h
    · exact hp.2.2 i hni hile h
    · exact hq i hile h
  | some n, some m =>
    rcases Nat.le_total n m with hnm | hmn
    · refine ⟨?_, ?_, ?_⟩
      · simpa [optMax, Nat.max_eq_right hnm] using hq.1
      · simpa [optMax, Nat.max_eq_right hnm] using
          (optAny_or _ _ _).mpr (Or.inr hq.2.1)
      · simp only [optMax, Nat.max_eq_right hnm]
        intro i hmi hile hany
        rcases (optAny_or _ _ _).mp hany with h | h
        · exact hp.2.2 i (lt_of_le_of_lt hnm hmi) hile h
        · exact hq.2.2 i hmi hile h
    · refine ⟨?_, ?_, ?_⟩
      · simpa [optMax, Nat.max_eq_left hmn] using hp.1
      · simpa [optMax, Nat.max_eq_left hmn] using
          (optAny_or _ _ _).mpr (Or.inl hp.2.1)
      · simp only [optMax, Nat.max_eq_left hmn]
        intro i hni hile hany
        rcases (optAny_or _ _ _).mp hany with h | h
        · exact hp.2.2 i hni hile h
        · exact hq.2.2 i (lt_of_le_of_lt hmn hni) hile h

theorem specLastMatch_or (p q : Char → Bool) (cs : Str) (fr : Nat) :
    specLastMatch (fun c => p c || q c) cs fr =
      optMax (specLastMatch p cs fr) (specLastMatch q cs fr) :=
  lastMatchSpec_unique (lastMatchSpec_specLastMatch _ cs fr)
    (lastMatchSpec_optMax (lastMatchSpec_specLastMatch p cs fr)
      (lastMatchSpec_specLastMatch q cs fr))

theorem optToInt_optMax (a b : Option Nat) :
    optToInt (optMax a b) = max (optToInt a) (optToInt b) := by
  match a, b with
  | none, none => rfl
  | none, some m =>
    have hm : (-1 : Int) ≤ (m : Int) := by omega
    simp [optMax, optToInt, max_eq_right hm]
  | some n, none =>
    have hn : (-1 : Int) ≤ (n : Int) := by omega
    simp [optMax, optToInt, max_eq_left hn]
  | some n, some m =>
    simp [optMax, optToInt, Nat.cast_max]

/-- The code's max-of-three-`lastIndexOf` equals the spec-shaped last
sentence-terminal position. -/
theorem sentenceMax_eq_specLastMatch (cs : Str) (fr : Nat) :
    max (max (jsLastIndexOf cs '.' fr) (jsLastIndexOf cs '?' fr))
        (jsLastIndexOf cs '!' fr) =
      optToInt (specLastMatch isTerminalChar cs fr) := by
  have h1 : specLastMatch (fun c => (c == '.') || (c == '?')) cs fr =
      optMax (specLastMatch (fun c => c == '.') cs fr)
        (specLastMatch (fun c => c == '?') cs fr) :=
    specLastMatch_or _ _ cs fr
  have h2 : specLastMatch isTerminalChar cs fr =
      optMax (specLastMatch (fun c => (c == '.') || (c == '?')) cs fr)
        (specLastMatch (fun c => c == '!') cs fr) :=
    specLastMatch_or _ _ cs fr
  rw [jsLastIndexOf, jsLastIndexOf, jsLastIndexOf, h2, h1,
    optToInt_optMax, optToInt_optMax]

/-- The code's boundary selection agrees with the spec-shaped strict-ratio
selection on every window whose candidate boundary is not past the text. -/
theorem computeEnd_eq_specEndStrict (cs : Str) (c start : Nat)
    (h : start + c < cs.length) :
    computeEnd cs c start = specEndStrict cs c start := by
  unfold computeEnd
  rw [if_pos h, sentenceMax_eq_specLastMatch]
  rcases hterm : specLastMatch isTerminalChar cs (start + c) with _ | p
  · simp only [specEndStrict, hterm, optToInt]
    rw [if_neg (by omega : ¬ (10 * (-1 : Int) > 10 * (start : Int) + 7 * (c : Int)))]
    rcases hsp : specLastMatch (fun x => x == ' ') cs (start + c) with _ | s
    · simp only [specSpaceEnd, hsp, jsLastIndexOf, optToInt]
      rw [if_neg (by omega : ¬ (10 * (-1 : Int) > 10 * (start : Int) + 8 * (c : Int)))]
    · simp only [specSpaceEnd, hsp, jsLastIndexOf, optToInt]
      by_cases hc : 10 * s > 10 * start + 8 * c
      · rw [if_pos (by exact_mod_cast hc), if_pos hc]
        omega
      · rw [if_neg (by exact_mod_cast hc), if_neg hc]
  · simp only [specEndStrict, hterm, optToInt]
    by_cases hc : 10 * p > 10 * start + 7 * c
    · rw [if_pos (by exact_mod_cast hc), if_pos hc]
      omega
    · rw [if_neg (by exact_mod_cast hc), if_neg hc]
      rcases hsp : specLastMatch (fun x => x == ' ') cs (start + c) with _ | s
      · simp only [specSpaceEnd, hsp, jsLastIndexOf, optToInt]
        rw [if_neg (by omega : ¬ (10 * (-1 : Int) > 10 * (start : Int) + 8 * (c : Int)))]
      · simp only [specSpaceEnd, hsp, jsLastIndexOf, optToInt]
        by_cases hc8 : 10 * s > 10 * start + 8 * c
        · rw [if_pos (by exact_mod_cast hc8), if_pos hc8]
          omega
        · rw [if_neg (by exact_mod_cast hc8), if_neg hc8]

theorem dropWhile_eq_cons_head_false {α : Type} {p : α → Bool} {l : List α}
    {x : α} {xs : List α} (h : l.dropWhile p = x :: xs) : p x = false := by
  have hid := List.dropWhile_idempotent (p := p) (l := l)
  rw [h, List.dropWhile_cons] at hid
  by_cases hp : p x
  · rw [if_pos hp] at hid
    have hlen := congrArg List.length hid
    have hle : (xs.dropWhile p).length ≤ xs.length :=
      ((List.dropWhile_suffix p).sublist).length_le
    simp only [List.length_cons] at hlen
    omega
  · simpa using hp

theorem dropWhile_rdrop_clean {α : Type} (p : α → Bool) (l : List α) :
    (List.rdropWhile p (l.dropWhile p)).dropWhile p =
      List.rdropWhile p (l.dropWhile p) := by
  rcases h : List.rdropWhile p (l.dropWhile p) with _ | ⟨x, xs⟩
  · simp
  · have hpre := List.rdropWhile_prefix p (l.dropWhile p)
    rw [h] at hpre
    obtain ⟨t, ht⟩ := hpre
    have hx : p x = false := by
      refine @dropWhile_eq_cons_head_false α p l x (xs ++ t) ?_
      rw [← ht]
      rfl
    rw [List.dropWhile_cons, hx]
    simp

/-- JavaScript `trim` is idempotent. -/
theorem trimChars_trimChars (s : Str) : trimChars (trimChars s) = trimChars s := by
  unfold trimChars
  rw [dropWhile_rdrop_clean, List.rdropWhile_idempotent]

/-- JavaScript `text.slice(start, end)` followed by `.trim()` — the chunk the
loop body produces for the window `[start, end)`. -/
def sliceChunk (cs : Str) (start e : Nat) : Str :=
  trimChars ((cs.drop start).take (e - start))

/-- Prepend a produced chunk, dropping it when empty after trimming (the
`if (chunk.length > 0) chunks.push(chunk)` guard). -/
def consNonEmpty (ch : Str) (l : List Str) : List Str :=
  if ch = [] then l else ch :: l

/-- The `while` loop of `chunkText`, with explicit fuel bounding the number of
iterations (the JavaScript loop has no such bound; for any terminating run of
the source loop, every sufficiently large fuel returns exactly its output —
see `chunkLoop_chunkTextLoop`). -/
def chunkTextLoop (cs : Str) (c o : Nat) : Nat → Nat → List Str
  | 0, _ => []
  | fuel + 1, start =>
    if start < cs.length then
      consNonEmpty (sliceChunk cs start (computeEnd cs c start))
        (chunkTextLoop cs c o fuel (computeEnd cs c start - o))
    else []

/-- `chunkText(text, chunkSize, overlap)` from `RAGWorkflow`
(src/unnamed/part_005): short or empty texts are returned whole, unprocessed;
otherwise the sliding-window loop runs (fuel-bounded, see `chunkTextLoop`). -/
def chunkText (fuel : Nat) (cs : Str) (c o : Nat) : List Str :=
  if cs = [] ∨ cs.length ≤ c then [cs]
  else chunkTextLoop cs c o fuel 0

structure ChunkMeta where
  text : Str
  filename : Str
  chunkIndex : Nat
  totalChunks : Nat
  chunkSize : Nat
  originalTextLength : Nat
deriving DecidableEq

/-- JavaScript `Array.prototype.map` with the element index, starting at `i`. -/
def mapIdxFrom {α β : Type} (f : Nat → α → β) : Nat → List α → List β
  | _, [] => []
  | i, a :: as => f i a :: mapIdxFrom f (i + 1) as

/-- `chunkTextWithMetadata` from `RAGWorkflow` (src/unnamed/part_005). -/
def chunkTextWithMetadata (fuel : Nat) (cs filename : Str) (c o : Nat) :
    List ChunkMeta :=
  let chunks := chunkText fuel cs c o
  mapIdxFrom (fun i ch => ⟨ch, filename, i, chunks.length, ch.length, cs.length⟩)
    0 chunks

/-- Big-step semantics of the `chunkText` `while` loop: `ChunkLoop cs c o start
res` holds exactly when the loop, entered with window start `start`, terminates
and emits the chunk list `res`.  The loop exits when `start ≥ len(text)`. -/
inductive ChunkLoop (cs : Str) (c o : Nat) : Nat → List Str → Prop
  | exit (start : Nat) : cs.length ≤ start → ChunkLoop cs c o start []
  | step (start : Nat) (rest : List Str) :
      start < cs.length →
      ChunkLoop cs c o (computeEnd cs c start - o) rest →
      ChunkLoop cs c o start
        (consNonEmpty (sliceChunk cs start (computeEnd cs c start)) rest)

/-- Every terminating run of the loop is computed by `chunkTextLoop` for all
sufficiently large fuel. -/
theorem chunkLoop_chunkTextLoop {cs : Str} {c o start : Nat} {res : List Str}
    (h : ChunkLoop cs c o start res) :
    ∃ n, ∀ f, n ≤ f → chunkTextLoop cs c o f start = res := by
  induction h with
  | exit s hs =>
    refine ⟨1, fun f hf => ?_⟩
    obtain ⟨k, rfl⟩ : ∃ k, f = k + 1 := ⟨f - 1, by omega⟩
    rw [chunkTextLoop, if_neg (by omega)]
  | step s rest hlt _ ih =>
    obtain ⟨n, hn⟩ := ih
    refine ⟨n + 1, fun f hf => ?_⟩
    obtain ⟨k, rfl⟩ : ∃ k, f = k + 1 := ⟨f - 1, by omega⟩
    rw [chunkTextLoop, if_pos hlt, hn k (by omega)]

/-- When `chunkSize > 0` and `10 * overlap ≤ 7 * chunkSize`, every loop
iteration moves the cut strictly past `start + overlap`, so the next window
start `end - overlap` strictly exceeds the previous one. -/
theorem computeEnd_progress (cs : Str) (c o start : Nat) (hc : 0 < c)
    (ho : 10 * o ≤ 7 * c) (hs : start < cs.length) :
    start + o < computeEnd cs c start := by
  by_cases hcand : start + c < cs.length
  · rw [computeEnd_eq_specEndStrict cs c start hcand]
    have hsp : start + o < specSpaceEnd cs c start := by
      unfold specSpaceEnd
      rcases hsp : specLastMatch (fun x => x == ' ') cs (start + c) with _ | s
      · show start + o < start + c
        omega
      · show start + o < if 10 * s > 10 * start + 8 * c then s else start + c
        by_cases h8 : 10 * s > 10 * start + 8 * c
        · rw [if_pos h8]
          omega
        · rw [if_neg h8]
          omega
    unfold specEndStrict
    rcases ht : specLastMatch isTerminalChar cs (start + c) with _ | p
    · exact hsp
    · show start + o <
        if 10 * p > 10 * start + 7 * c then p + 1 else specSpaceEnd cs c start
      by_cases h7 : 10 * p > 10 * start + 7 * c
      · rw [if_pos h7]
        omega
      · rw [if_neg h7]
        exact hsp
  · unfold computeEnd
    rw [if_neg hcand]
    omega

theorem chunkLoop_total_aux (cs : Str) (c o : Nat) (hc : 0 < c)
    (ho : 10 * o ≤ 7 * c) :
    ∀ n start, cs.length - start ≤ n → ∃ res, ChunkLoop cs c o start res := by
  intro n
  induction n with
  | zero =>
    intro start hle
    exact ⟨[], ChunkLoop.exit start (by omega)⟩
  | succ n ih =>
    intro start hle
    by_cases hs : start < cs.length
    · have hprog := computeEnd_progress cs c o start hc ho hs
      obtain ⟨res, hres⟩ := ih (computeEnd cs c start - o) (by omega)
      exact ⟨_, ChunkLoop.step start res hs hres⟩
    · exact ⟨[], ChunkLoop.exit start (by omega)⟩

theorem chunkTextLoop_trimmed (cs : Str) (c o : Nat) :
    ∀ fuel start ch, ch ∈ chunkTextLoop cs c o fuel start →
      trimChars ch = ch ∧ ch ≠ [] := by
  intro fuel
  induction fuel with
  | zero =>
    intro start ch h
    simp [chunkTextLoop] at h
  | succ n ih =>
    intro start ch h
    rw [chunkTextLoop] at h
    by_cases hs : start < cs.length
    · rw [if_pos hs] at h
      unfold consNonEmpty at h
      by_cases he : sliceChunk cs start (computeEnd cs c start) = []
      · rw [if_pos he] at h
        exact ih _ ch h
      · rw [if_neg he] at h
        rcases List.mem_cons.mp h with h | h
        · subst h
          exact ⟨trimChars_trimChars _, he⟩
        · exact ih _ ch h
    · rw [if_neg hs] at h
      simp at h

theorem mem_mapIdxFrom {α β : Type} (f : Nat → α → β) :
    ∀ (i : Nat) (l : List α) (b : β), b ∈ mapIdxFrom f i l → ∃ j a, b = f j a := by
  intro i l
  induction l generalizing i with
  | nil =>
    intro b h
    simp [mapIdxFrom] at h
  | cons x xs ih =>
    intro b h
    rw [mapIdxFrom] at h
    rcases List.mem_cons.mp h with h | h
    · exact ⟨i, x, h⟩
    · exact ih (i + 1) b h

/-- Claim C4 (amended): for every window whose candidate end boundary
`start + chunkSize` is not the end of the text, `chunkText` cuts immediately
after the last sentence-terminal punctuation (`.`, `?`, `!`) at or before the
candidate boundary provided that position is strictly later than
`start + 0.7 * chunkSize`; failing that, at the last space character at or
before the candidate boundary provided it is strictly later than
`start + 0.8 * chunkSize`; and otherwise at exactly `start + chunkSize`
(a mid-token cut). -/
theorem claim_C4 (cs : Str) (c start : Nat) (h : start + c < cs.length) :
    computeEnd cs c start = specEndStrict cs c start :=
  computeEnd_eq_specEndStrict cs c start h

theorem claim_C4_witness :
    0 + 20 < (lit "Sentence one. Sentence two. Sentence three.").length ∧
    computeEnd (lit "Sentence one. Sentence two. Sentence three.") 20 0 =
      specEndStrict (lit "Sentence one. Sentence two. Sentence three.") 20 0 :=
  ⟨by decide, claim_C4 (lit "Sentence one. Sentence two. Sentence three.") 20 0 (by decide)⟩

/-- Claim C4 counterexample: in the text `"abcdefg.hijklmnopqr"` with
`chunkSize = 10`, `start = 0`, the last sentence terminal at or before the
candidate boundary sits at position 7, which is no earlier than
`start + 0.7 * chunkSize = 7` — so the claim as stated requires a cut at the
punctuation (end 8) — yet the code cuts at the raw `start + chunkSize = 10`
(the source condition is strict: `lastSentenceEnd > start + chunkSize * 0.7`). -/
theorem claim_C4_counterexample :
    specLastMatch isTerminalChar (lit "abcdefg.hijklmnopqr") (0 + 10) = some 7 ∧
    10 * 7 ≥ 10 * 0 + 7 * 10 ∧
    0 + 10 < (lit "abcdefg.hijklmnopqr").length ∧
    computeEnd (lit "abcdefg.hijklmnopqr") 10 0 = 10 ∧
    7 + 1 ≠ 10 :=
  ⟨by decide, by decide, by decide, by decide, by decide⟩

/-- Claim C5 (amended): when `chunkSize > 0` and
`overlap ≤ 0.7 * chunkSize` (exactly: `10 * overlap ≤ 7 * chunkSize`, which
holds for both configurations the repository uses, 1000/200 and 8000/500),
every iteration's next window start `end - overlap` strictly exceeds the
previous start, and the loop terminates from every start — the loop ends when
`start ≥ len(text)` (the `ChunkLoop.exit` rule).  `overlap < chunkSize` alone
does not guarantee progress (see the counterexample). -/
theorem claim_C5 (cs : Str) (c o : Nat) (hc : 0 < c) (ho : 10 * o ≤ 7 * c) :
    (∀ start, start < cs.length → start < computeEnd cs c start - o) ∧
    (∀ start, ∃ res, ChunkLoop cs c o start res) := by
  constructor
  · intro start hs
    have := computeEnd_progress cs c o start hc ho hs
    omega
  · intro start
    exact chunkLoop_total_aux cs c o hc ho cs.length start (by omega)

theorem claim_C5_witness :
    (0 < 20 ∧ 10 * 5 ≤ 7 * 20) ∧
    0 < computeEnd (lit "Sentence one. Sentence two. Sentence three.") 20 0 - 5 ∧
    (∃ res, ChunkLoop (lit "Sentence one. Sentence two. Sentence three.") 20 5 0 res) := by
  have h := claim_C5 (lit "Sentence one. Sentence two. Sentence three.") 20 5
    (by decide) (by decide)
  exact ⟨⟨by decide, by decide⟩, h.1 0 (by decide), h.2 0⟩

theorem chunkLoop_cex_ne_zero :
    ∀ start res, ChunkLoop (lit "aaaaaaaa.zzzz") 10 9 start res → start ≠ 0 := by
  intro start res h
  induction h with
  | exit s hs =>
    intro heq
    subst heq
    exact absurd hs (by decide)
  | step s rest hlt hrec ih =>
    intro heq
    subst heq
    exact ih (by decide)

/-- Claim C5 counterexample: with `chunkSize = 10`, `overlap = 9` (so
`overlap < chunkSize`) on the text `"aaaaaaaa.zzzz"`, the first iteration cuts
just after the `.` at position 8, so the next window start `end - overlap`
is `9 - 9 = 0` — it does not strictly exceed the previous start `0` — and the
loop never terminates. -/
theorem claim_C5_counterexample :
    9 < 10 ∧
    computeEnd (lit "aaaaaaaa.zzzz") 10 0 - 9 = 0 ∧
    ¬ (∃ res, ChunkLoop (lit "aaaaaaaa.zzzz") 10 9 0 res) := by
  refine ⟨by decide, by decide, ?_⟩
  rintro ⟨res, h⟩
  exact chunkLoop_cex_ne_zero 0 res h rfl

/-- Claim C6 (amended): for every input text with `len(text) > chunkSize`,
every chunk in the sequence returned by `chunkText` is trimmed of leading and
trailing whitespace (trimming it again changes nothing), chunks that are empty
after trimming are dropped, and the `totalChunks` value attached by
`chunkTextWithMetadata` equals the number of returned chunks.  For
`len(text) ≤ chunkSize` the source instead returns the single chunk `[text]`
untrimmed and keeps it even when empty (see the counterexample). -/
theorem claim_C6 (fuel : Nat) (cs fn : Str) (c o : Nat) (h : c < cs.length) :
    (∀ ch ∈ chunkText fuel cs c o, trimChars ch = ch ∧ ch ≠ []) ∧
    (∀ md ∈ chunkTextWithMetadata fuel cs fn c o,
      md.totalChunks = (chunkText fuel cs c o).length) := by
  have hguard : ¬ (cs = [] ∨ cs.length ≤ c) := by
    rintro (rfl | hle)
    · simp at h
    · omega
  constructor
  · intro ch hch
    rw [chunkText, if_neg hguard] at hch
    exact chunkTextLoop_trimmed cs c o fuel 0 ch hch
  · intro md hmd
    simp only [chunkTextWithMetadata] at hmd
    obtain ⟨j, a, rfl⟩ := mem_mapIdxFrom _ 0 _ md hmd
    rfl

theorem claim_C6_witness :
    5 < (lit "one. two. nine").length ∧
    (∀ ch ∈ chunkText 14 (lit "one. two. nine") 5 1, trimChars ch = ch ∧ ch ≠ []) ∧
    (∀ md ∈ chunkTextWithMetadata 14 (lit "one. two. nine") (lit "f") 5 1,
      md.totalChunks = (chunkText 14 (lit "one. two. nine") 5 1).length) := by
  have h := claim_C6 14 (lit "one. two. nine") (lit "f") 5 1 (by decide)
  exact ⟨by decide, h.1, h.2⟩

/-- Claim C6 counterexample: `chunkText` on the short input `" a "` (length
at most `chunkSize`) returns the single chunk `" a "` with its leading and
trailing whitespace intact, and on the empty input returns one empty chunk
instead of dropping it. -/
theorem claim_C6_counterexample :
    chunkText 1 (lit " a ") 1000 200 = [lit " a "] ∧
    trimChars (lit " a ") ≠ lit " a " ∧
    chunkText 1 (lit "") 1000 200 = [lit ""] :=
  ⟨by decide, by decide, by decide⟩

/-! Query pipeline (src/unnamed/part_001, `queryHandling.js`).  The external
collaborators are parameters: the vector index response is a list of
`{id, score}` pairs, the document store response a list of rows, the
completion service a function from the assembled context to the generated
text, and the web search a thunk returning its (already error-absorbed)
result list. -/

def MAX_CONTEXT_CHARS : Nat := 1500

def DEFAULT_SCORE_THRESHOLD : ℚ := 72 / 100

def DEFAULT_TOP_K : Nat := 8

structure DocMetadata where
  id : Nat
  source : Str
  chunkIndex : Nat
  totalChunks : Nat
deriving DecidableEq

structure Document where
  pageContent : Str
  metadata : DocMetadata
deriving DecidableEq

/-- A retrieval match: hydrated document plus the vector index's score. -/
structure Match where
  document : Document
  score : ℚ
deriving DecidableEq

structure ProvenanceEntry where
  id : Nat
  score : ℚ
  source : Str
deriving DecidableEq

/-- One `{id, score}` entry of the vector index's response (ids are strings
on the index side). -/
structure VectorMatch where
  vid : Str
  score : ℚ
deriving DecidableEq

/-- One row of the `pdfs` table as returned by the document store. -/
structure DbRow where
  rid : Nat
  text : Str
  filename : Str
  chunkIndex : Nat
  totalChunks : Nat
deriving DecidableEq

def rowToDocument (r : DbRow) : Document :=
  ⟨r.text, ⟨r.rid, r.filename, r.chunkIndex, r.totalChunks⟩⟩

/-- `results.find(r => r.id.toString() === match.id)`. -/
def rowLookup (rows : List DbRow) (vm : VectorMatch) : Option DbRow :=
  rows.find? (fun r => lit (Nat.repr r.rid) == vm.vid)

/-- The re-association loop of `retrieveDocs`: walk the vector matches in the
index's order, hydrate each against the store rows, silently dropping matches
whose id has no row. -/
def combineMatches (rows : List DbRow) : List VectorMatch → List Match
  | [] => []
  | vm :: vms =>
    match rowLookup rows vm with
    | some r => ⟨rowToDocument r, vm.score⟩ :: combineMatches rows vms
    | none => combineMatches rows vms

/-- `retrieveDocs(query, topK, env)` (src/unnamed/part_001), as a function of
the collaborator responses: the vector index's match list and the document
store's row set (`none` models a store response with no `results` field). -/
def retrieveDocs (vms : List VectorMatch) (stored : Option (List DbRow)) :
    List Match :=
  if vms.isEmpty then []
  else
    match stored with
    | none => []
    | some rows => combineMatches rows vms

/-- JavaScript `Math.round`: round half toward positive infinity. -/
def jsRound (q : ℚ) : ℤ := ⌊q + 1 / 2⌋

/-- JavaScript `score.toFixed(4)` for the non-negative scores this pipeline
renders: round to four decimals and print with exactly four fractional
digits. -/
def toFixed4 (q : ℚ) : Str :=
  let n := (jsRound (q * 10000)).toNat
  lit (Nat.repr (n / 10000)) ++ '.' ::
    (List.replicate (4 - (Nat.repr (n % 10000)).length) '0' ++ lit (Nat.repr (n % 10000)))

/-- `doc.metadata.id || 'unknown'` — the row id `0` is falsy in JavaScript. -/
def idDisplay (n : Nat) : Str :=
  if n = 0 then lit "unknown" else lit (Nat.repr n)

def provOf (m : Match) : ProvenanceEntry :=
  ⟨m.document.metadata.id, m.score, m.document.metadata.source⟩

/-- The truncation step of `buildContextSnippet`: cap the (already trimmed)
text and append the ellipsis marker exactly when it exceeds the cap. -/
def truncateForContext (t : Str) (cap : Nat) : Str :=
  if cap < t.length then t.take cap ++ lit " …" else t

def docBlock (cap i : Nat) (m : Match) : Str :=
  lit "--- DOC " ++ lit (Nat.repr (i + 1)) ++ lit " (id=" ++
    idDisplay m.document.metadata.id ++ lit ", score=" ++ toFixed4 m.score ++
    lit ") ---\n" ++ truncateForContext (trimChars m.document.pageContent) cap ++
    lit "\n"

/-- The body of `buildContextSnippet`'s `for` loop: push one rendered block
and one provenance entry per match, in order. -/
def buildParts (cap : Nat) : Nat → List Match → List Str × List ProvenanceEntry
  | _, [] => ([], [])
  | i, m :: ms =>
    let rest := buildParts cap (i + 1) ms
    (docBlock cap i m :: rest.1, provOf m :: rest.2)

/-- `buildContextSnippet(matches, includeLimitChars)` (src/unnamed/part_001). -/
def buildContextSnippet (ms : List Match) (cap : Nat) :
    Str × List ProvenanceEntry :=
  let pp := buildParts cap 0 ms
  (List.intercalate (lit "\n\n") pp.1, pp.2)

structure ToolResult where
  docId : Str
  score : ℚ
  source : Str
  snippet : Str
deriving DecidableEq

/-- `Math.round(score * 1000) / 1000`. -/
def round3 (q : ℚ) : ℚ := (jsRound (q * 1000) : ℚ) / 1000

def toolResultOf (i : Nat) (m : Match) : ToolResult :=
  ⟨if m.document.metadata.id = 0 then lit "unknown_" ++ lit (Nat.repr i)
    else lit (Nat.repr m.document.metadata.id),
   round3 m.score,
   if m.document.metadata.source = [] then lit "unknown"
    else m.document.metadata.source,
   m.document.pageContent.take 300 ++ lit "..."⟩

/-- `dbQueryTool` (src/unnamed/part_001): format the retrieval results;
retrieval failures are caught and mapped to `[]` upstream of this
formatting. -/
def dbQueryTool (ms : List Match) : List ToolResult := mapIdxFrom toolResultOf 0 ms

structure SearchItem where
  title : Str
  link : Str
  snippet : Str
deriving DecidableEq

/-- `googleSearchTool` (src/unnamed/part_001) as a function of the credential
configuration and the fetched response (`Except.error` models any thrown
error, `Except.ok none` a response without an `items` field).  Missing
credentials throw inside the `try`, and every error is caught and mapped to
the empty result list. -/
def googleSearchTool (hasKey hasCse : Bool)
    (response : Except String (Option (List SearchItem))) : List SearchItem :=
  if hasKey && hasCse then
    match response with
    | Except.error _ => []
    | Except.ok none => []
    | Except.ok (some items) => items
  else []

/-- Strip trailing zeros of a fractional digit string. -/
def stripTrailingZeros (s : Str) : Str := List.rdropWhile (fun c => c == '0') s

def fracDigits3 (n : Nat) : Str :=
  stripTrailingZeros (List.replicate (3 - (Nat.repr n).length) '0' ++ lit (Nat.repr n))

/-- JavaScript number-to-string interpolation for the scores this pipeline
renders (non-negative exact multiples of 1/1000, the outputs of `round3`):
the shortest decimal form. -/
def jsNumRepr (q : ℚ) : Str :=
  let n := (⌊q * 1000⌋).toNat
  if n % 1000 = 0 then lit (Nat.repr (n / 1000))
  else lit (Nat.repr (n / 1000)) ++ '.' :: fracDigits3 (n % 1000)

/-- One line of the agent's database context:
`Doc ID: ..., Source: ..., Score: ...\n<snippet>`. -/
def toolResultLine (r : ToolResult) : Str :=
  lit "Doc ID: " ++ r.docId ++ lit ", Source: " ++ r.source ++ lit ", Score: " ++
    jsNumRepr r.score ++ lit "\n" ++ r.snippet

def databaseBlock (rs : List ToolResult) : Str :=
  lit "Database Results:\n" ++
    List.intercalate (lit "\n\n") (rs.map toolResultLine) ++ lit "\n\n"

def webLine (w : SearchItem) : Str :=
  w.title ++ lit "\n" ++ w.snippet ++ lit "\n" ++ w.link

def webBlock (ws : List SearchItem) : Str :=
  lit "Web Search Results:\n" ++ List.intercalate (lit "\n\n") (ws.map webLine)

/-- The hybrid branch's gate for invoking the web search:
`dbResults.length === 0 || dbResults[0].score < CONFIG.DEFAULT_SCORE_THRESHOLD`.
Note the comparison is against the fixed default threshold. -/
def needsWebSearch : List ToolResult → Bool
  | [] => true
  | r :: _ => decide (r.score < DEFAULT_SCORE_THRESHOLD)

/-- The context assembled by `runAgent`'s hybrid branch.  The web search
thunk is forced only inside the gated branch, exactly as in the source. -/
def hybridContext (rs : List ToolResult) (search : Unit → List SearchItem) : Str :=
  let base := if rs = [] then [] else databaseBlock rs
  if needsWebSearch rs then
    let ws := search ()
    if ws = [] then base else base ++ webBlock ws
  else base

def dbOnlyAgentContext (rs : List ToolResult) : Str :=
  List.intercalate (lit "\n\n") (rs.map toolResultLine)

/-- `runAgent(query, mode, env)` (src/unnamed/part_001), as a function of the
formatted database results, the web search thunk and the completion service. -/
def runAgent (mode : String) (rs : List ToolResult)
    (search : Unit → List SearchItem) (gen : Str → Str) : Str :=
  if mode = "db-only" then
    match rs with
    | [] => lit "NOT_IN_DB"
    | r :: _ =>
      if r.score < DEFAULT_SCORE_THRESHOLD then lit "NOT_IN_DB"
      else gen (dbOnlyAgentContext rs)
  else gen (hybridContext rs search)

structure AnswerResult where
  answer : Str
  provenance : Option (List ProvenanceEntry)
deriving DecidableEq

/-- `answerQuery(query, mode, topK, scoreThreshold, env)`
(src/unnamed/part_001).  `retrieve k` is the retrieval pipeline's result for
`topK = k` (the hybrid branch retrieves with the fixed `topK = 5` through
`dbQueryTool`); `gen` is the completion service applied to the assembled
context; an unsupported mode is an error. -/
def answerQuery (mode : String) (retrieve : Nat → List Match) (topK : Nat)
    (scoreThreshold : ℚ) (search : Unit → List SearchItem) (gen : Str → Str) :
    Except String AnswerResult :=
  if mode = "db-only" then
    match retrieve topK with
    | [] => Except.ok ⟨lit "NOT_IN_DB", some []⟩
    | m :: rest =>
      let bc := buildContextSnippet (m :: rest) MAX_CONTEXT_CHARS
      if m.score < scoreThreshold then Except.ok ⟨lit "NOT_IN_DB", some bc.2⟩
      else Except.ok ⟨gen bc.1, some bc.2⟩
  else if mode = "hybrid" then
    Except.ok ⟨runAgent "hybrid" (dbQueryTool (retrieve 5)) search gen, none⟩
  else Except.error "mode must be db-only or hybrid"

def relevanceOf (s : ℚ) : String :=
  if 8 / 10 < s then "High" else if 6 / 10 < s then "Medium" else "Low"

structure SourceDetail where
  docId : Nat
  source : Str
  score : ℚ
  relevance : String
deriving DecidableEq

def detailOf (p : ProvenanceEntry) : SourceDetail :=
  ⟨p.id, p.source, p.score, relevanceOf p.score⟩

structure QueryResponse where
  answer : Str
  sources : List ProvenanceEntry
  sourceDetails : Option (List SourceDetail)
deriving DecidableEq

/-- The `/query` route (src/unnamed/part_004): forward to `answerQuery`,
publish `result.provenance || []` as `sources`, and attach `sourceDetails`
only when provenance is present and non-empty. -/
def queryRoute (mode : String) (retrieve : Nat → List Match) (topK : Nat)
    (scoreThreshold : ℚ) (search : Unit → List SearchItem) (gen : Str → Str) :
    Except String QueryResponse :=
  match answerQuery mode retrieve topK scoreThreshold search gen with
  | Except.error e => Except.error e
  | Except.ok r =>
    let sources := r.provenance.getD []
    Except.ok ⟨r.answer, sources,
      if sources = [] then none else some (sources.map detailOf)⟩

theorem buildParts_eq (cap : Nat) (i : Nat) (ms : List Match) :
    buildParts cap i ms =
      (mapIdxFrom (fun j m => docBlock cap j m) i ms, ms.map provOf) := by
  induction ms generalizing i with
  | nil => rfl
  | cons m ms ih => simp [buildParts, mapIdxFrom, ih]

theorem buildContextSnippet_fst (ms : List Match) (cap : Nat) :
    (buildContextSnippet ms cap).1 =
      List.intercalate (lit "\n\n") (mapIdxFrom (fun j m => docBlock cap j m) 0 ms) := by
  simp [buildContextSnippet, buildParts_eq]

theorem buildContextSnippet_snd (ms : List Match) (cap : Nat) :
    (buildContextSnippet ms cap).2 = ms.map provOf := by
  simp [buildContextSnippet, buildParts_eq]

theorem combineMatches_eq_filterMap (rows : List DbRow) (vms : List VectorMatch) :
    combineMatches rows vms =
      vms.filterMap (fun vm => (rowLookup rows vm).map
        (fun r => ⟨rowToDocument r, vm.score⟩)) := by
  induction vms with
  | nil => rfl
  | cons vm vms ih =>
    rcases h : rowLookup rows vm with _ | r
    · simp [combineMatches, List.filterMap_cons, h, ih]
    · simp [combineMatches, List.filterMap_cons, h, ih]

theorem combineMatches_score_sublist (rows : List DbRow) (vms : List VectorMatch) :
    ((combineMatches rows vms).map Match.score).Sublist
      (vms.map VectorMatch.score) := by
  induction vms with
  | nil => simp [combineMatches]
  | cons vm vms ih =>
    rcases h : rowLookup rows vm with _ | r
    · simp only [combineMatches, h]
      exact ih.cons vm.score
    · simp only [combineMatches, h, List.map_cons]
      exact ih.cons₂ vm.score

theorem answerQuery_dbOnly_nil {retrieve : Nat → List Match} {topK : Nat}
    {st : ℚ} {search : Unit → List SearchItem} {gen : Str → Str}
    (h : retrieve topK = []) :
    answerQuery "db-only" retrieve topK st search gen =
      Except.ok ⟨lit "NOT_IN_DB", some []⟩ := by
  simp [answerQuery, h]

theorem answerQuery_dbOnly_below {retrieve : Nat → List Match} {topK : Nat}
    {st : ℚ} {search : Unit → List SearchItem} {gen : Str → Str}
    {m : Match} {rest : List Match}
    (h : retrieve topK = m :: rest) (hlt : m.score < st) :
    answerQuery "db-only" retrieve topK st search gen =
      Except.ok ⟨lit "NOT_IN_DB", some ((m :: rest).map provOf)⟩ := by
  simp [answerQuery, h, hlt, buildContextSnippet_snd]

theorem answerQuery_dbOnly_above {retrieve : Nat → List Match} {topK : Nat}
    {st : ℚ} {search : Unit → List SearchItem} {gen : Str → Str}
    {m : Match} {rest : List Match}
    (h : retrieve topK = m :: rest) (hge : st ≤ m.score) :
    answerQuery "db-only" retrieve topK st search gen =
      Except.ok ⟨gen (buildContextSnippet (m :: rest) MAX_CONTEXT_CHARS).1,
        some ((m :: rest).map provOf)⟩ := by
  simp [answerQuery, h, not_lt.mpr hge, buildContextSnippet_snd]

theorem answerQuery_hybrid (retrieve : Nat → List Match) (topK : Nat) (st : ℚ)
    (search : Unit → List SearchItem) (gen : Str → Str) :
    answerQuery "hybrid" retrieve topK st search gen =
      Except.ok ⟨gen (hybridContext (dbQueryTool (retrieve 5)) search), none⟩ := by
  simp [answerQuery, runAgent]

theorem hybridContext_indep {rs : List ToolResult}
    (h : needsWebSearch rs = false) (s1 s2 : Unit → List SearchItem) :
    hybridContext rs s1 = hybridContext rs s2 := by
  simp [hybridContext, h]

theorem hybridContext_emptyWeb {rs : List ToolResult}
    {search : Unit → List SearchItem} (h : search () = []) :
    hybridContext rs search = (if rs = [] then [] else databaseBlock rs) := by
  cases hnw : needsWebSearch rs <;> simp [hybridContext, hnw, h]

theorem hybridContext_withWeb {rs : List ToolResult}
    {search : Unit → List SearchItem} (hnw : needsWebSearch rs = true)
    (h : search () ≠ []) :
    hybridContext rs search =
      (if rs = [] then [] else databaseBlock rs) ++ webBlock (search ()) := by
  simp [hybridContext, hnw, h]

theorem round3_fourFifths : round3 (4 / 5 : ℚ) = 4 / 5 := by
  have h : jsRound ((4 : ℚ) / 5 * 1000) = 800 := by
    unfold jsRound
    rw [Int.floor_eq_iff]
    constructor <;> norm_num
  rw [round3, h]
  norm_num

theorem needsWeb_cex :
    needsWebSearch (dbQueryTool [⟨⟨lit "t", ⟨1, lit "s.pdf", 0, 1⟩⟩, 4 / 5⟩]) = false := by
  show decide (round3 (4 / 5 : ℚ) < DEFAULT_SCORE_THRESHOLD) = false
  rw [decide_eq_false_iff_not, round3_fourFifths]
  show ¬ ((4 : ℚ) / 5 < 72 / 100)
  norm_num

/-- Claim C1: for every db-only query, zero matches yield the sentinel
`"NOT_IN_DB"` with empty provenance; a top match strictly below the
caller-supplied `scoreThreshold` yields the sentinel with the gathered
(non-empty) provenance; a top match at or above the threshold yields the
generated answer over the assembled context.  In particular, with
`scoreThreshold = 0.72` a top score of `0.70` yields `"NOT_IN_DB"` and a top
score of `0.75` yields the generated answer, not the sentinel. -/
theorem claim_C1 (retrieve : Nat → List Match) (topK : Nat) (st : ℚ)
    (search : Unit → List SearchItem) (gen : Str → Str) :
    (retrieve topK = [] →
      answerQuery "db-only" retrieve topK st search gen =
        Except.ok ⟨lit "NOT_IN_DB", some []⟩) ∧
    (∀ m rest, retrieve topK = m :: rest → m.score < st →
      answerQuery "db-only" retrieve topK st search gen =
        Except.ok ⟨lit "NOT_IN_DB", some ((m :: rest).map provOf)⟩ ∧
      (m :: rest).map provOf ≠ []) ∧
    (∀ m rest, retrieve topK = m :: rest → st ≤ m.score →
      answerQuery "db-only" retrieve topK st search gen =
        Except.ok ⟨gen (buildContextSnippet (m :: rest) MAX_CONTEXT_CHARS).1,
          some ((m :: rest).map provOf)⟩) ∧
    (∀ m rest, retrieve topK = m :: rest → m.score = 70 / 100 →
      answerQuery "db-only" retrieve topK (72 / 100) search gen =
        Except.ok ⟨lit "NOT_IN_DB", some ((m :: rest).map provOf)⟩) ∧
    (∀ m rest, retrieve topK = m :: rest → m.score = 75 / 100 →
      answerQuery "db-only" retrieve topK (72 / 100) search gen =
        Except.ok ⟨gen (buildContextSnippet (m :: rest) MAX_CONTEXT_CHARS).1,
          some ((m :: rest).map provOf)⟩ ∧
      (gen (buildContextSnippet (m :: rest) MAX_CONTEXT_CHARS).1 ≠ lit "NOT_IN_DB" →
        ∀ r, answerQuery "db-only" retrieve topK (72 / 100) search gen = Except.ok r →
          r.answer ≠ lit "NOT_IN_DB")) := by
  refine ⟨fun h => answerQuery_dbOnly_nil h,
    fun m rest h hlt => ⟨answerQuery_dbOnly_below h hlt, by simp⟩,
    fun m rest h hge => answerQuery_dbOnly_above h hge,
    fun m rest h hsc => answerQuery_dbOnly_below h (by rw [hsc]; norm_num),
    fun m rest h hsc => ?_⟩
  have hab := @answerQuery_dbOnly_above retrieve topK (72 / 100) search gen m rest
    h (by rw [hsc]; norm_num)
  refine ⟨hab, fun hne r hr => ?_⟩
  rw [hab] at hr
  simp only [Except.ok.injEq] at hr
  subst hr
  exact hne

theorem claim_C1_witness :
    answerQuery "db-only" (fun _ => []) 8 (72 / 100) (fun _ => []) (fun c => c) =
      Except.ok ⟨lit "NOT_IN_DB", some []⟩ ∧
    answerQuery "db-only" (fun _ => [⟨⟨lit "t", ⟨1, lit "s.pdf", 0, 1⟩⟩, 70 / 100⟩])
        8 (72 / 100) (fun _ => []) (fun c => c) =
      Except.ok ⟨lit "NOT_IN_DB",
        some ([⟨⟨lit "t", ⟨1, lit "s.pdf", 0, 1⟩⟩, (70 : ℚ) / 100⟩].map provOf)⟩ ∧
    answerQuery "db-only" (fun _ => [⟨⟨lit "t", ⟨1, lit "s.pdf", 0, 1⟩⟩, 75 / 100⟩])
        8 (72 / 100) (fun _ => []) (fun c => c) =
      Except.ok
        ⟨(buildContextSnippet [⟨⟨lit "t", ⟨1, lit "s.pdf", 0, 1⟩⟩, (75 : ℚ) / 100⟩]
            MAX_CONTEXT_CHARS).1,
          some ([⟨⟨lit "t", ⟨1, lit "s.pdf", 0, 1⟩⟩, (75 : ℚ) / 100⟩].map provOf)⟩ := by
  refine ⟨(claim_C1 (fun _ => []) 8 (72 / 100) (fun _ => []) (fun c => c)).1 rfl,
    (claim_C1 (fun _ => [⟨⟨lit "t", ⟨1, lit "s.pdf", 0, 1⟩⟩, 70 / 100⟩]) 8 (72 / 100)
      (fun _ => []) (fun c => c)).2.2.2.1 _ [] rfl rfl, ?_⟩
  exact ((claim_C1 (fun _ => [⟨⟨lit "t", ⟨1, lit "s.pdf", 0, 1⟩⟩, 75 / 100⟩]) 8 (72 / 100)
    (fun _ => []) (fun c => c)).2.2.2.2 _ [] rfl rfl).1

/-- Claim C2 (amended): in hybrid mode the web search collaborator is invoked
exactly when database retrieval (which `runAgent` performs with the fixed
`topK = 5`) produced zero matches or the top match's 3-decimal-rounded score
is below the fixed default threshold `0.72` — the caller-supplied
`scoreThreshold` is not consulted in hybrid mode (see the counterexample);
a "Web Search Results" block is appended only when the search returns at
least one result; when retrieval produced at least one match a
"Database Results" block built from the tool results is included; and a query
with zero database matches and a working web search derives its context from
web results only. -/
theorem claim_C2 (retrieve : Nat → List Match) (topK : Nat) (st : ℚ)
    (search s1 s2 : Unit → List SearchItem) (gen : Str → Str) :
    (needsWebSearch (dbQueryTool (retrieve 5)) = false →
      answerQuery "hybrid" retrieve topK st s1 gen =
        answerQuery "hybrid" retrieve topK st s2 gen) ∧
    (∀ rs : List ToolResult, needsWebSearch rs = true → search () ≠ [] →
      hybridContext rs search =
        (if rs = [] then [] else databaseBlock rs) ++ webBlock (search ())) ∧
    (∀ rs : List ToolResult, search () = [] →
      hybridContext rs search = (if rs = [] then [] else databaseBlock rs)) ∧
    needsWebSearch (dbQueryTool []) = true ∧
    (∀ m rest, needsWebSearch (dbQueryTool (m :: rest)) =
      decide (round3 m.score < DEFAULT_SCORE_THRESHOLD)) ∧
    (retrieve 5 = [] → search () ≠ [] →
      answerQuery "hybrid" retrieve topK st search gen =
        Except.ok ⟨gen (webBlock (search ())), none⟩) := by
  refine ⟨fun h => ?_, fun rs hnw hne => hybridContext_withWeb hnw hne,
    fun rs h => hybridContext_emptyWeb h, rfl, fun m rest => rfl,
    fun hdb hne => ?_⟩
  · rw [answerQuery_hybrid, answerQuery_hybrid, hybridContext_indep h s1 s2]
  · rw [answerQuery_hybrid, hdb,
      show dbQueryTool [] = [] from rfl, @hybridContext_withWeb [] search rfl hne]
    simp

theorem claim_C2_witness :
    answerQuery "hybrid" (fun _ => [⟨⟨lit "t", ⟨1, lit "s.pdf", 0, 1⟩⟩, 4 / 5⟩])
        8 (72 / 100) (fun _ => [⟨lit "T", lit "L", lit "S"⟩]) (fun c => c) =
      answerQuery "hybrid" (fun _ => [⟨⟨lit "t", ⟨1, lit "s.pdf", 0, 1⟩⟩, 4 / 5⟩])
        8 (72 / 100) (fun _ => []) (fun c => c) ∧
    hybridContext [] (fun _ => [⟨lit "T", lit "L", lit "S"⟩]) =
      (if ([] : List ToolResult) = [] then [] else databaseBlock []) ++
        webBlock [⟨lit "T", lit "L", lit "S"⟩] ∧
    answerQuery "hybrid" (fun _ => []) 8 (72 / 100)
        (fun _ => [⟨lit "T", lit "L", lit "S"⟩]) (fun c => c) =
      Except.ok ⟨webBlock [⟨lit "T", lit "L", lit "S"⟩], none⟩ := by
  have h := claim_C2 (fun _ => [⟨⟨lit "t", ⟨1, lit "s.pdf", 0, 1⟩⟩, 4 / 5⟩]) 8 (72 / 100)
    (fun _ => [⟨lit "T", lit "L", lit "S"⟩]) (fun _ => [⟨lit "T", lit "L", lit "S"⟩])
    (fun _ => []) (fun c => c)
  have h0 := claim_C2 (fun _ => []) 8 (72 / 100)
    (fun _ => [⟨lit "T", lit "L", lit "S"⟩]) (fun _ => [⟨lit "T", lit "L", lit "S"⟩])
    (fun _ => []) (fun c => c)
  exact ⟨h.1 needsWeb_cex, h0.2.1 [] rfl (by simp), h0.2.2.2.2.2 rfl (by simp)⟩

/-- Claim C2 counterexample: with caller-supplied `scoreThreshold = 0.9`, one
database match of score `0.8` (below that threshold) and a web search that
returns one result, the claim requires the web search to be invoked and its
block appended; but the code gates on the fixed default `0.72`, so the answer
is identical to the run whose search returns nothing, and the assembled
context is exactly the database block — no web block. -/
theorem claim_C2_counterexample :
    (4 / 5 : ℚ) < 9 / 10 ∧
    ([⟨lit "T", lit "L", lit "S"⟩] : List SearchItem) ≠ [] ∧
    answerQuery "hybrid" (fun _ => [⟨⟨lit "t", ⟨1, lit "s.pdf", 0, 1⟩⟩, 4 / 5⟩])
        8 (9 / 10) (fun _ => [⟨lit "T", lit "L", lit "S"⟩]) (fun c => c) =
      answerQuery "hybrid" (fun _ => [⟨⟨lit "t", ⟨1, lit "s.pdf", 0, 1⟩⟩, 4 / 5⟩])
        8 (9 / 10) (fun _ => []) (fun c => c) ∧
    answerQuery "hybrid" (fun _ => [⟨⟨lit "t", ⟨1, lit "s.pdf", 0, 1⟩⟩, 4 / 5⟩])
        8 (9 / 10) (fun _ => [⟨lit "T", lit "L", lit "S"⟩]) (fun c => c) =
      Except.ok
        ⟨databaseBlock (dbQueryTool [⟨⟨lit "t", ⟨1, lit "s.pdf", 0, 1⟩⟩, 4 / 5⟩]),
          none⟩ := by
  refine ⟨by norm_num, by simp, ?_, ?_⟩
  · rw [answerQuery_hybrid, answerQuery_hybrid, hybridContext_indep needsWeb_cex]
  · rw [answerQuery_hybrid, hybridContext_indep needsWeb_cex _ (fun _ => []),
      hybridContext_emptyWeb rfl, if_neg (by simp [dbQueryTool, mapIdxFrom])]

/-- Claim C3: an error raised by the web search collaborator — including
missing search credentials — is caught and treated as an empty result list,
so a hybrid query does not abort: it returns the generated answer over the
database-only context with no web block appended. -/
theorem claim_C3 (hasKey hasCse : Bool) (e : String)
    (response : Except String (Option (List SearchItem)))
    (retrieve : Nat → List Match) (topK : Nat) (st : ℚ) (gen : Str → Str) :
    googleSearchTool hasKey hasCse (Except.error e) = [] ∧
    googleSearchTool false hasCse response = [] ∧
    googleSearchTool hasKey false response = [] ∧
    answerQuery "hybrid" retrieve topK st
        (fun _ => googleSearchTool hasKey hasCse (Except.error e)) gen =
      Except.ok ⟨gen (if dbQueryTool (retrieve 5) = [] then []
        else databaseBlock (dbQueryTool (retrieve 5))), none⟩ := by
  have herr : googleSearchTool hasKey hasCse (Except.error e) = [] := by
    cases hasKey <;> cases hasCse <;> rfl
  refine ⟨herr, by cases hasCse <;> rfl, by cases hasKey <;> rfl, ?_⟩
  rw [answerQuery_hybrid, hybridContext_emptyWeb herr]

/-- Claim C7: retrieval returns at most as many matches as the vector index
reports (hence at most `topK` under the index's contract), in the index's
order — the result is the index's match list hydrated in order against the
store, matches without a store row silently dropped (`filterMap`); it
preserves descending-score ordering; and zero index matches give the empty
sequence, not an error. -/
theorem claim_C7 (vms : List VectorMatch) (rows : List DbRow)
    (stored : Option (List DbRow)) (k : Nat) :
    (vms.length ≤ k → (retrieveDocs vms stored).length ≤ k) ∧
    (vms = [] → retrieveDocs vms stored = []) ∧
    retrieveDocs vms (some rows) =
      vms.filterMap (fun vm => (rowLookup rows vm).map
        (fun r => ⟨rowToDocument r, vm.score⟩)) ∧
    (vms.Pairwise (fun a b => b.score ≤ a.score) →
      (retrieveDocs vms stored).Pairwise (fun a b => b.score ≤ a.score)) := by
  refine ⟨?_, ?_, ?_, ?_⟩
  · intro hk
    unfold retrieveDocs
    by_cases hv : vms.isEmpty
    · rw [if_pos hv]
      simp
    · rw [if_neg hv]
      cases stored with
      | none => simp
      | some rows' =>
        calc (combineMatches rows' vms).length
            ≤ vms.length := by
              rw [combineMatches_eq_filterMap]
              exact List.length_filterMap_le _ _
          _ ≤ k := hk
  · rintro rfl
    rfl
  · unfold retrieveDocs
    by_cases hv : vms.isEmpty
    · have hnil : vms = [] := by simpa using hv
      subst hnil
      rfl
    · rw [if_neg hv]
      exact combineMatches_eq_filterMap rows vms
  · intro hp
    unfold retrieveDocs
    by_cases hv : vms.isEmpty
    · rw [if_pos hv]
      exact List.Pairwise.nil
    · rw [if_neg hv]
      cases stored with
      | none => exact List.Pairwise.nil
      | some rows' =>
        have hsub := combineMatches_score_sublist rows' vms
        have hvp : (vms.map VectorMatch.score).Pairwise (fun a b => b ≤ a) :=
          (List.pairwise_map).mpr hp
        exact (List.pairwise_map).mp (List.Pairwise.sublist hsub hvp)

theorem claim_C7_witness :
    (retrieveDocs [⟨lit "1", 9 / 10⟩, ⟨lit "2", 1 / 2⟩]
      (some [⟨1, lit "txt", lit "f.pdf", 0, 1⟩])).length ≤ 2 ∧
    retrieveDocs [] (some [⟨1, lit "txt", lit "f.pdf", 0, 1⟩]) = [] ∧
    (retrieveDocs [⟨lit "1", 9 / 10⟩, ⟨lit "2", 1 / 2⟩]
      (some [⟨1, lit "txt", lit "f.pdf", 0, 1⟩])).Pairwise
        (fun a b => b.score ≤ a.score) := by
  have h := claim_C7 [⟨lit "1", 9 / 10⟩, ⟨lit "2", 1 / 2⟩]
    [⟨1, lit "txt", lit "f.pdf", 0, 1⟩] (some [⟨1, lit "txt", lit "f.pdf", 0, 1⟩]) 2
  have h0 := claim_C7 [] [⟨1, lit "txt", lit "f.pdf", 0, 1⟩]
    (some [⟨1, lit "txt", lit "f.pdf", 0, 1⟩]) 2
  refine ⟨h.1 (by simp), h0.2.1 rfl, h.2.2.2 ?_⟩
  simp [List.pairwise_cons]
  norm_num

/-- Claim C8: `buildContextSnippet` emits, in ranking order, one delimited
block per match (ordinal, id, 4-decimal score header; trimmed then
cap-truncated text with an ellipsis marker exactly when the trimmed length
exceeds the cap), joins blocks with a blank-line separator, and returns one
provenance entry `{id, score, source}` per match in the same order.  In
particular a length-2000 text against cap 1500 emits the first 1500
characters plus the marker, and a length-1000 text is emitted verbatim. -/
theorem claim_C8 (ms : List Match) (cap : Nat) :
    (buildContextSnippet ms cap).2 = ms.map provOf ∧
    (buildContextSnippet ms cap).1 =
      List.intercalate (lit "\n\n")
        (mapIdxFrom (fun j m => docBlock cap j m) 0 ms) ∧
    (∀ t : Str, cap < t.length →
      truncateForContext t cap = t.take cap ++ lit " …") ∧
    (∀ t : Str, t.length ≤ cap → truncateForContext t cap = t) ∧
    (∀ t : Str, t.length = 2000 →
      truncateForContext t 1500 = t.take 1500 ++ lit " …") ∧
    (∀ t : Str, t.length = 1000 → truncateForContext t 1500 = t) := by
  refine ⟨buildContextSnippet_snd ms cap, buildContextSnippet_fst ms cap,
    fun t h => if_pos h, fun t h => if_neg (not_lt.mpr h),
    fun t h => if_pos (by omega), fun t h => if_neg (by omega)⟩

theorem claim_C8_witness :
    truncateForContext (List.replicate 2000 'a') 1500 =
      (List.replicate 2000 'a').take 1500 ++ lit " …" ∧
    truncateForContext (List.replicate 1000 'a') 1500 = List.replicate 1000 'a' := by
  have h := claim_C8 [] 1500
  exact ⟨h.2.2.2.2.1 _ (by rw [List.length_replicate]),
    h.2.2.2.2.2 _ (by rw [List.length_replicate])⟩

/-- Claim C9 (amended): in db-only mode the query endpoint's result carries
one `ProvenanceEntry {id, score, source}` per retrieved match, mirroring the
Match ranking, with `sourceDetails` classifying each source as High
(score > 0.8), Medium (score > 0.6) or Low; in hybrid mode `answerQuery`
returns no provenance, so the endpoint's `sources` list is empty regardless
of the retrieved matches (see the counterexample). -/
theorem claim_C9 (retrieve : Nat → List Match) (topK : Nat) (st : ℚ)
    (search : Unit → List SearchItem) (gen : Str → Str) :
    (retrieve topK = [] →
      queryRoute "db-only" retrieve topK st search gen =
        Except.ok ⟨lit "NOT_IN_DB", [], none⟩) ∧
    (∀ m rest, retrieve topK = m :: rest →
      ∃ a, queryRoute "db-only" retrieve topK st search gen =
        Except.ok ⟨a, (m :: rest).map provOf,
          some (((m :: rest).map provOf).map detailOf)⟩) ∧
    (∃ a, queryRoute "hybrid" retrieve topK st search gen =
      Except.ok ⟨a, [], none⟩) ∧
    (∀ s : ℚ, (8 / 10 < s → relevanceOf s = "High") ∧
      (s ≤ 8 / 10 → 6 / 10 < s → relevanceOf s = "Medium") ∧
      (s ≤ 6 / 10 → relevanceOf s = "Low")) := by
  refine ⟨fun h => ?_, fun m rest h => ?_, ?_,
    fun s => ⟨fun h => ?_, fun h1 h2 => ?_, fun h => ?_⟩⟩
  · unfold queryRoute
    rw [answerQuery_dbOnly_nil h]
    rfl
  · by_cases hlt : m.score < st
    · refine ⟨lit "NOT_IN_DB", ?_⟩
      unfold queryRoute
      rw [answerQuery_dbOnly_below h hlt]
      show (Except.ok ⟨lit "NOT_IN_DB", (m :: rest).map provOf,
          if (m :: rest).map provOf = [] then none
          else some (((m :: rest).map provOf).map detailOf)⟩ :
        Except String QueryResponse) =
        Except.ok ⟨lit "NOT_IN_DB", (m :: rest).map provOf,
          some (((m :: rest).map provOf).map detailOf)⟩
      rw [if_neg (by simp)]
    · refine ⟨gen (buildContextSnippet (m :: rest) MAX_CONTEXT_CHARS).1, ?_⟩
      unfold queryRoute
      rw [answerQuery_dbOnly_above h (not_lt.mp hlt)]
      show (Except.ok ⟨gen (buildContextSnippet (m :: rest) MAX_CONTEXT_CHARS).1,
          (m :: rest).map provOf,
          if (m :: rest).map provOf = [] then none
          else some (((m :: rest).map provOf).map detailOf)⟩ :
        Except String QueryResponse) =
        Except.ok ⟨gen (buildContextSnippet (m :: rest) MAX_CONTEXT_CHARS).1,
          (m :: rest).map provOf,
          some (((m :: rest).map provOf).map detailOf)⟩
      rw [if_neg (by simp)]
  · refine ⟨gen (hybridContext (dbQueryTool (retrieve 5)) search), ?_⟩
    unfold queryRoute
    rw [answerQuery_hybrid]
    rfl
  · unfold relevanceOf
    rw [if_pos h]
  · unfold relevanceOf
    rw [if_neg (not_lt.mpr h1), if_pos h2]
  · unfold relevanceOf
    rw [if_neg (not_lt.mpr (le_trans h (by norm_num))), if_neg (not_lt.mpr h)]

theorem claim_C9_witness :
    queryRoute "db-only" (fun _ => []) 8 (72 / 100) (fun _ => []) (fun c => c) =
      Except.ok ⟨lit "NOT_IN_DB", [], none⟩ ∧
    (∃ a, queryRoute "db-only"
        (fun _ => [⟨⟨lit "t", ⟨1, lit "s.pdf", 0, 1⟩⟩, 9 / 10⟩]) 8 (72 / 100)
        (fun _ => []) (fun c => c) =
      Except.ok ⟨a, [⟨⟨lit "t", ⟨1, lit "s.pdf", 0, 1⟩⟩, (9 : ℚ) / 10⟩].map provOf,
        some (([⟨⟨lit "t", ⟨1, lit "s.pdf", 0, 1⟩⟩, (9 : ℚ) / 10⟩].map provOf).map
          detailOf)⟩) ∧
    relevanceOf (9 / 10) = "High" := by
  have h := claim_C9 (fun _ => [⟨⟨lit "t", ⟨1, lit "s.pdf", 0, 1⟩⟩, 9 / 10⟩]) 8
    (72 / 100) (fun _ => []) (fun c => c)
  have h0 := claim_C9 (fun _ => []) 8 (72 / 100) (fun _ => []) (fun c => c)
  exact ⟨h0.1 rfl, h.2.1 _ [] rfl, (h.2.2.2 (9 / 10)).1 (by norm_num)⟩

/-- Claim C9 counterexample: a hybrid query whose retrieval returns one match
still answers with an empty `sources` list and no `sourceDetails` — hybrid
`answerQuery` returns no provenance, so provenance is not emitted with every
answer, one entry per retrieved match. -/
theorem claim_C9_counterexample :
    ([⟨⟨lit "t", ⟨1, lit "s.pdf", 0, 1⟩⟩, (9 : ℚ) / 10⟩] : List Match) ≠ [] ∧
    queryRoute "hybrid" (fun _ => [⟨⟨lit "t", ⟨1, lit "s.pdf", 0, 1⟩⟩, 9 / 10⟩]) 8
        (72 / 100) (fun _ => []) (fun _ => lit "A") =
      Except.ok ⟨lit "A", [], none⟩ := by
  refine ⟨by simp, ?_⟩
  unfold queryRoute
  rw [answerQuery_hybrid]
  rfl

/-- Claim C10: a hybrid query with zero database matches and zero web results
still invokes the completion service with the empty context string and
returns its generated text — no sentinel short-circuit and no error. -/
theorem claim_C10 (retrieve : Nat → List Match) (topK : Nat) (st : ℚ)
    (search : Unit → List SearchItem) (gen : Str → Str)
    (hdb : retrieve 5 = []) (hws : search () = []) :
    answerQuery "hybrid" retrieve topK st search gen =
      Except.ok ⟨gen (lit ""), none⟩ ∧
    (gen (lit "") ≠ lit "NOT_IN_DB" →
      ∀ r, answerQuery "hybrid" retrieve topK st search gen = Except.ok r →
        r.answer ≠ lit "NOT_IN_DB") := by
  have hmain : answerQuery "hybrid" retrieve topK st search gen =
      Except.ok ⟨gen (lit ""), none⟩ := by
    rw [answerQuery_hybrid, hdb, show dbQueryTool [] = [] from rfl,
      hybridContext_emptyWeb hws]
    rfl
  refine ⟨hmain, fun hne r hr => ?_⟩
  rw [hmain] at hr
  simp only [Except.ok.injEq] at hr
  subst hr
  exact hne

theorem claim_C10_witness :
    answerQuery "hybrid" (fun _ => []) 8 (72 / 100) (fun _ => []) (fun c => c) =
      Except.ok ⟨lit "", none⟩ :=
  (claim_C10 (fun _ => []) 8 (72 / 100) (fun _ => []) (fun c => c) rfl rfl).1

end AstroRag
